import Mathlib

/-!
Verification of the Caption This round/judging core.

The contract logic is embedded from the Python code shown in the repository
tutorial (src/unnamed/part_006).  Storage maps are modelled as association
lists; the composite string keys of the source ("round_id:address" and
"round_id:index") are represented as pairs, which is injective because the
addresses rendered by str(Address) are colon-free hex strings and the index
component is a decimal numeral.  Parts of the deployed contract that are not
shown in the repository (the resolve-time validation block, the solo scoring
branch, and cancel_round) are modelled from the specification and marked as
such in their doc comments.
-/

namespace CaptionThis

/-- Python whitespace characters recognised by str.strip(). -/
def isPyWs (c : Char) : Bool :=
  c = ' ' ∨ c = '\t' ∨ c = '\n' ∨ c = '\r' ∨ c = '\x0b' ∨ c = '\x0c'

/-- Embedding of Python str.strip(): drop whitespace at both ends. -/
def pyStrip (cs : List Char) : List Char :=
  ((cs.dropWhile isPyWs).reverse.dropWhile isPyWs).reverse

/-- Embedding of Python str.find(c): index of the first occurrence, if any
(the -1 sentinel of the source is rendered as none). -/
def pyFind (cs : List Char) (c : Char) : Option Nat :=
  cs.findIdx? (fun d => d = c)

/-- Embedding of Python str.rfind(c): index of the last occurrence, if any. -/
def pyRfind (cs : List Char) (c : Char) : Option Nat :=
  match (cs.reverse.findIdx? (fun d => d = c)) with
  | some k => some (cs.length - 1 - k)
  | none => none

/-- Embedding of the Python slice s[a:b]. -/
def pySlice (cs : List Char) (a b : Nat) : List Char :=
  (cs.drop a).take (b - a)

/-- Embedding of Python str.startswith on whole strings. -/
def pyStartsWith (s pre : String) : Bool :=
  pre.toList.isPrefixOf s.toList

/-- JSON values, as produced by json.loads.  Number literals are modelled for
integers only; the judge protocol never emits fractional numbers. -/
inductive Json where
  | null : Json
  | bool (b : Bool) : Json
  | num (n : Int) : Json
  | str (s : String) : Json
  | arr (xs : List Json) : Json
  | obj (kvs : List (String × Json)) : Json

/-- Association-list lookup (first binding wins; states built by setA have
unique keys, so this is the map lookup of the source TreeMap). -/
def lookupA {K V : Type} [DecidableEq K] : List (K × V) → K → Option V
  | [], _ => none
  | (k', v) :: rest, k => if k' = k then some v else lookupA rest k

/-- Association-list update: replace the binding if present, else append. -/
def setA {K V : Type} [DecidableEq K] : List (K × V) → K → V → List (K × V)
  | [], k, v => [(k, v)]
  | (k', v') :: rest, k, v =>
      if k' = k then (k, v) :: rest else (k', v') :: setA rest k v

/-- Dictionary built by json.loads: later duplicate keys override earlier
ones, so lookup scans from the right. -/
def objGet (kvs : List (String × Json)) (k : String) : Option Json :=
  lookupA kvs.reverse k

/-- Value of a string of decimal digits. -/
def digitsToNat (cs : List Char) : Nat :=
  cs.foldl (fun acc c => acc * 10 + (c.toNat - '0'.toNat)) 0

/-- Decode the four hex digits of a \u escape. -/
def hexVal (c : Char) : Nat :=
  if c.isDigit then c.toNat - '0'.toNat
  else if 'a' ≤ c ∧ c ≤ 'f' then c.toNat - 'a'.toNat + 10
  else if 'A' ≤ c ∧ c ≤ 'F' then c.toNat - 'A'.toNat + 10
  else 0

/-- Skip JSON inter-token whitespace. -/
def skipWs (cs : List Char) : List Char :=
  cs.dropWhile (fun c => c = ' ' ∨ c = '\t' ∨ c = '\n' ∨ c = '\r')

/-- Parse the body of a JSON string literal after the opening quote,
handling the standard escapes. -/
def parseStrBody : Nat → List Char → List Char → Option (String × List Char)
  | 0, _, _ => none
  | _ + 1, [], _ => none
  | fuel + 1, c :: rest, acc =>
    if c = '"' then some (String.mk acc.reverse, rest)
    else if c = '\\' then
      match rest with
      | [] => none
      | e :: rest' =>
        if e = '"' then parseStrBody fuel rest' ('"' :: acc)
        else if e = '\\' then parseStrBody fuel rest' ('\\' :: acc)
        else if e = '/' then parseStrBody fuel rest' ('/' :: acc)
        else if e = 'n' then parseStrBody fuel rest' ('\n' :: acc)
        else if e = 't' then parseStrBody fuel rest' ('\t' :: acc)
        else if e = 'r' then parseStrBody fuel rest' ('\r' :: acc)
        else if e = 'b' then parseStrBody fuel rest' ('\x08' :: acc)
        else if e = 'f' then parseStrBody fuel rest' ('\x0c' :: acc)
        else if e = 'u' then
          match rest' with
          | h1 :: h2 :: h3 :: h4 :: rest'' =>
            let n := ((hexVal h1 * 16 + hexVal h2) * 16 + hexVal h3) * 16 + hexVal h4
            parseStrBody fuel rest'' (Char.ofNat n :: acc)
          | _ => none
        else none
    else parseStrBody fuel rest (c :: acc)

/-- Parse a run of decimal digits (at least one). -/
def parseDigits (cs : List Char) : Option (Nat × List Char) :=
  let ds := cs.takeWhile Char.isDigit
  if ds = [] then none else some (digitsToNat ds, cs.drop ds.length)

mutual

/-- Recursive-descent JSON value parser (fueled). -/
def parseVal : Nat → List Char → Option (Json × List Char)
  | 0, _ => none
  | fuel + 1, cs =>
    match skipWs cs with
    | 'n' :: 'u' :: 'l' :: 'l' :: rest => some (.null, rest)
    | 't' :: 'r' :: 'u' :: 'e' :: rest => some (.bool true, rest)
    | 'f' :: 'a' :: 'l' :: 's' :: 'e' :: rest => some (.bool false, rest)
    | '"' :: rest =>
      match parseStrBody (rest.length + 1) rest [] with
      | some (s, rest') => some (.str s, rest')
      | none => none
    | '[' :: rest => parseArrItems fuel (skipWs rest) true
    | '{' :: rest => parseObjItems fuel (skipWs rest) true
    | '-' :: rest =>
      match parseDigits rest with
      | some (n, rest') =>
        match rest' with
        | '.' :: _ => none
        | 'e' :: _ => none
        | 'E' :: _ => none
        | _ => some (.num (-(n : Int)), rest')
      | none => none
    | c :: rest =>
      if c.isDigit then
        match parseDigits (c :: rest) with
        | some (n, rest') =>
          match rest' with
          | '.' :: _ => none
          | 'e' :: _ => none
          | 'E' :: _ => none
          | _ => some (.num (n : Int), rest')
        | none => none
      else none
    | [] => none

/-- Parse the items of a JSON array; first is true before the first item. -/
def parseArrItems : Nat → List Char → Bool → Option (Json × List Char)
  | 0, _, _ => none
  | fuel + 1, cs, first =>
    match cs with
    | ']' :: rest => if first then some (.arr [], rest) else none
    | _ =>
      match parseVal fuel cs with
      | some (v, rest) =>
        match skipWs rest with
        | ',' :: rest' =>
          match parseArrItems fuel (skipWs rest') false with
          | some (.arr vs, rest'') => some (.arr (v :: vs), rest'')
          | _ => none
        | ']' :: rest' => some (.arr [v], rest')
        | _ => none
      | none => none

/-- Parse the members of a JSON object; first is true before the first one. -/
def parseObjItems : Nat → List Char → Bool → Option (Json × List Char)
  | 0, _, _ => none
  | fuel + 1, cs, first =>
    match cs with
    | '}' :: rest => if first then some (.obj [], rest) else none
    | '"' :: rest =>
      match parseStrBody (rest.length + 1) rest [] with
      | some (k, rest') =>
        match skipWs rest' with
        | ':' :: rest'' =>
          match parseVal fuel rest'' with
          | some (v, rest3) =>
            match skipWs rest3 with
            | ',' :: rest4 =>
              match parseObjItems fuel (skipWs rest4) false with
              | some (.obj kvs, rest5) => some (.obj ((k, v) :: kvs), rest5)
              | _ => none
            | '}' :: rest4 => some (.obj [(k, v)], rest4)
            | _ => none
          | none => none
        | _ => none
      | none => none
    | _ => none

end

/-- Embedding of json.loads: parse one value and require that only
whitespace remains. -/
def jsonLoads (cs : List Char) : Option Json :=
  match parseVal (2 * cs.length + 2) cs with
  | some (j, rest) => if skipWs rest = [] then some j else none
  | none => none

/-- Decidable equality of Except results, used to evaluate the model on
concrete inputs. -/
instance {e a : Type} [DecidableEq e] [DecidableEq a] : DecidableEq (Except e a) :=
  fun x y =>
    match x, y with
    | .ok u, .ok v =>
      if h : u = v then .isTrue (by rw [h])
      else .isFalse (fun hh => h (Except.ok.inj hh))
    | .error u, .error v =>
      if h : u = v then .isTrue (by rw [h])
      else .isFalse (fun hh => h (Except.error.inj hh))
    | .ok _, .error _ => .isFalse (fun hh => Except.noConfusion hh)
    | .error _, .ok _ => .isFalse (fun hh => Except.noConfusion hh)

/-- Round record of the contract.  The cancelled flag is modelled from the
spec (the tutorial snapshot of the Round dataclass predates cancel_round):
cancelled is a terminal creator-only state. -/
structure Round where
  round_id : String
  image_url : String
  category : String
  creator : String
  created_at : Nat
  submission_deadline : Nat
  resolved : Bool
  cancelled : Bool
deriving Repr, DecidableEq

/-- Caption record: author identity, text and submission time. -/
structure Caption where
  author : String
  text : String
  submitted_at : Nat
deriving Repr, DecidableEq

/-- RoundResult record, shaped after src/types/round.ts (the authoritative
declaration of the full result: nullable runner_up fields, is_solo_round,
nullable solo_score). -/
structure RoundResult where
  winner : String
  runner_up : Option String
  winner_caption : String
  runner_up_caption : Option String
  resolved_at : Nat
  is_solo_round : Bool
  solo_score : Option Nat
deriving Repr, DecidableEq

/-- Contract storage.  Each TreeMap of the source is an association list;
the composite string keys are represented as pairs (see the header note). -/
structure State where
  rounds : List (String × Round)
  round_captions : List ((String × String) × Caption)
  round_participant_addresses : List ((String × Nat) × String)
  round_participant_counts : List (String × Nat)
  round_results : List (String × RoundResult)
  xp_scores : List (String × Nat)
  player_list : List String
  round_counter : Nat
deriving Repr, DecidableEq

/-- The freshly deployed contract: every map empty. -/
def initState : State :=
  ⟨[], [], [], [], [], [], [], 0⟩

/-- Categories accepted by create_round (valid_categories in the source). -/
def validCategories : List String := ["Funniest", "Most Accurate"]

/-- Participant count of a round (round_participant_counts.get(rid, 0)). -/
def cntOf (s : State) (rid : String) : Nat :=
  (lookupA s.round_participant_counts rid).getD 0

/-- XP of a player as recorded in the ledger (0 when absent). -/
def xpOf (s : State) (a : String) : Nat :=
  (lookupA s.xp_scores a).getD 0

/-- create_round, from the tutorial source: validates id uniqueness, HTTPS
url and category, then stores a Round with a 300 second submission window
and bumps the round counter. -/
def create_round (s : State) (sender : String) (now : Nat)
    (round_id image_url category : String) : Except String State :=
  if (lookupA s.rounds round_id).isSome then
    .error "Round ID already exists"
  else if ¬ pyStartsWith image_url "https://" then
    .error "Invalid image URL: must be HTTPS"
  else if ¬ category ∈ validCategories then
    .error "Invalid category"
  else
    let deadline := now + 300
    .ok { s with
      rounds := setA s.rounds round_id
        ⟨round_id, image_url, category, sender, now, deadline, false, false⟩,
      round_counter := s.round_counter + 1 }

/-- submit_caption, from the tutorial source: validates round existence,
deadline, single submission per author and caption length, then writes the
Caption, records the author in the participant index at the current count,
and increments the count. -/
def submit_caption (s : State) (sender : String) (now : Nat)
    (round_id caption : String) : Except String State :=
  match lookupA s.rounds round_id with
  | none => .error "Round not found"
  | some rd =>
    if rd.submission_deadline < now then
      .error "Submission deadline has passed"
    else if (lookupA s.round_captions (round_id, sender)).isSome then
      .error "You have already submitted a caption"
    else if caption.length = 0 then
      .error "Caption cannot be empty"
    else if 280 < caption.length then
      .error "Caption too long (max 280 characters)"
    else
      let c := cntOf s round_id
      .ok { s with
        round_captions :=
          setA s.round_captions (round_id, sender) ⟨sender, caption, now⟩,
        round_participant_addresses :=
          setA s.round_participant_addresses (round_id, c) sender,
        round_participant_counts :=
          setA s.round_participant_counts round_id (c + 1) }

/-- Letter id assigned to participant i at evaluation time (chr(65 + i)). -/
def letterId (i : Nat) : String :=
  String.mk [Char.ofNat (65 + i)]

/-- The gather loop of resolve_round: walk the participant index in
submission order and pair each letter id with the caption text and with the
author address (captions_for_eval and id_to_address in the source).  A
missing storage key is a KeyError in the source, i.e. a failed call. -/
def gather (s : State) (rid : String) :
    List Nat → Except String (List (String × String) × List (String × String))
  | [] => .ok ([], [])
  | i :: rest =>
    match lookupA s.round_participant_addresses (rid, i) with
    | none => .error "KeyError: participant"
    | some addr =>
      match lookupA s.round_captions (rid, addr) with
      | none => .error "KeyError: caption"
      | some cap =>
        match gather s rid rest with
        | .error e => .error e
        | .ok (ce, ia) =>
          .ok ((letterId i, cap.text) :: ce, (letterId i, addr) :: ia)

/-- The _award_xp helper from the source: first-time players are
initialised to 0 and appended to player_list, then the amount is added. -/
def award_xp (s : State) (player : String) (amount : Nat) : State :=
  let s1 :=
    if (lookupA s.xp_scores player).isSome then s
    else { s with
      xp_scores := setA s.xp_scores player 0,
      player_list := s.player_list ++ [player] }
  { s1 with
    xp_scores := setA s1.xp_scores player ((lookupA s1.xp_scores player).getD 0 + amount) }

/-- The string the source hands to json.loads: the stripped text when it
already opens with a brace, otherwise the slice from the first opening
brace to the last closing brace (find / rfind + 1), or none when the
sentinel checks of the source (start != -1 and end > start) fail. -/
def effectiveJson (raw : List Char) : Option (List Char) :=
  let js := pyStrip raw
  if js.head? = some '{' then some js
  else
    match pyFind js '{', pyRfind js '}' with
    | some st, some rf => if st < rf + 1 then some (pySlice js st (rf + 1)) else none
    | _, _ => none

/-- The result-parsing block of resolve_round (tutorial lines 642-679):
empty check, strip, brace slicing, json.loads, presence of the winner and
runner_up keys, and translation of the two letter ids through id_to_address
(a KeyError on an unknown id or a non-string value fails the call).
Distinctness of the two ids is not checked here. -/
def parseAgreed (raw : List Char) (table : List (String × String)) :
    Except String (String × String) :=
  if raw = [] ∨ pyStrip raw = [] then .error "AI returned empty response"
  else
    match effectiveJson raw with
    | none => .error "AI response not valid JSON"
    | some js =>
      match jsonLoads js with
      | none => .error "Failed to parse AI response"
      | some j =>
        match j with
        | .obj kvs =>
          match objGet kvs "winner", objGet kvs "runner_up" with
          | some wv, some rv =>
            match wv, rv with
            | .str w, .str r =>
              match lookupA table w, lookupA table r with
              | some wa, some ra => .ok (wa, ra)
              | _, _ => .error "KeyError: caption id"
            | _, _ => .error "KeyError: caption id"
          | _, _ => .error "AI response missing winner or runner_up"
        | _ => .error "AI response missing winner or runner_up"

/-- Modelled from the spec: the solo score read from one replica output
(the exact-match agreement mode treats any non-numeric value as a
disagreement). -/
def parseScore (raw : List Char) : Option Nat :=
  let t := pyStrip raw
  if t ≠ [] ∧ t.all Char.isDigit then some (digitsToNat t) else none

/-- Modelled from the spec: exact-match agreement for solo scoring.  All
replicas must yield the identical integer in [1, 10]; any mismatch,
non-numeric or out-of-range value is a disagreement failure.  The
gl.eq_principle machinery that runs the replicas is platform code absent
from the repository. -/
def soloAgreement : List (List Char) → Except String Nat
  | [] => .error "Validators could not reach agreement"
  | r0 :: rest =>
    match parseScore r0 with
    | none => .error "Validators could not reach agreement"
    | some k =>
      if rest.all (fun r => parseScore r == some k) then
        if 1 ≤ k ∧ k ≤ 10 then .ok k
        else .error "Validators could not reach agreement"
      else .error "Validators could not reach agreement"

/-- Write the RoundResult and flip the resolved flag (the final block of
resolve_round). -/
def finalizeResolve (s : State) (rid : String) (rd : Round)
    (res : RoundResult) : State :=
  { s with
    round_results := setA s.round_results rid res,
    rounds := setA s.rounds rid { rd with resolved := true } }

/-- resolve_round with the platform judging calls abstracted into inputs:
soloReps are the replica outputs of the solo scoring run and agreed is the
comparative output agreed through gl.eq_principle (none when the validators
disagree).  The function applies mutations in source order and reports the
state reached when an error stops it, so that atomicity is a theorem rather
than a modelling assumption.  The validation block (elided in the tutorial)
and the solo branch are modelled from the spec; the comparative branch and
reward block follow the tutorial code. -/
def resolve_round_raw (s : State) (now : Nat) (rid : String)
    (soloReps : List (List Char)) (agreed : Option (List Char)) :
    State × Except String Unit :=
  match lookupA s.rounds rid with
  | none => (s, .error "Round not found")
  | some rd =>
    if rd.cancelled then (s, .error "StateError: round was cancelled")
    else if rd.resolved then (s, .error "StateError: round already resolved")
    else if ¬ rd.submission_deadline < now then
      (s, .error "StateError: submission deadline has not passed")
    else
      let cnt := cntOf s rid
      if cnt = 0 then (s, .error "StateError: need at least 1 participant")
      else
        match gather s rid (List.range cnt) with
        | .error e => (s, .error e)
        | .ok (ce, ia) =>
          if cnt = 1 then
            match soloAgreement soloReps with
            | .error e => (s, .error e)
            | .ok score =>
              match ia, ce with
              | (_, a0) :: _, (_, t0) :: _ =>
                let s1 := award_xp s a0 (3 + score * 15 / 10)
                let res : RoundResult :=
                  ⟨a0, none, t0, none, now, true, some score⟩
                (finalizeResolve s1 rid rd res, .ok ())
              | _, _ => (s, .error "KeyError: participant")
          else
            match agreed with
            | none => (s, .error "Validators could not reach agreement")
            | some raw =>
              match parseAgreed raw ia with
              | .error e => (s, .error e)
              | .ok (wa, ra) =>
                let participants := ia.map Prod.snd
                let s1 := participants.foldl (fun st a => award_xp st a 3) s
                let s2 := award_xp s1 wa (15 - 3)
                let s3 := award_xp s2 ra (8 - 3)
                match lookupA s3.round_captions (rid, wa),
                      lookupA s3.round_captions (rid, ra) with
                | some wc, some rc =>
                  let res : RoundResult :=
                    ⟨wa, some ra, wc.text, some rc.text, now, false, none⟩
                  (finalizeResolve s3 rid rd res, .ok ())
                | _, _ => (s3, .error "KeyError: caption")

/-- resolve_round as the caller sees it: the platform reverts the whole
transaction on error (UserError semantics), so an error carries no state. -/
def resolve_round (s : State) (now : Nat) (rid : String)
    (soloReps : List (List Char)) (agreed : Option (List Char)) :
    Except String State :=
  match resolve_round_raw s now rid soloReps agreed with
  | (s', .ok _) => .ok s'
  | (_, .error e) => .error e

/-- Modelled from the spec: cancel_round (its contract body is not in the
repository, only the client wrapper).  It fails unless the caller is the
creator and the round is not yet resolved; on success it marks the round
cancelled with no rewards and no result. -/
def cancel_round (s : State) (sender : String) (rid : String) :
    Except String State :=
  match lookupA s.rounds rid with
  | none => .error "Round not found"
  | some rd =>
    if ¬ sender = rd.creator then .error "StateError: only the creator can cancel"
    else if rd.resolved then .error "StateError: round already resolved"
    else .ok { s with rounds := setA s.rounds rid { rd with cancelled := true } }

/-- One caption entry of the get_round response. -/
structure CaptionView where
  author : String
  text : String
  submitted_at : Nat
deriving Repr, DecidableEq

/-- The get_round response dictionary. -/
structure RoundView where
  round_id : String
  image_url : String
  category : String
  creator : String
  created_at : Nat
  submission_deadline : Nat
  resolved : Bool
  captions : List CaptionView
  participant_count : Nat
deriving Repr, DecidableEq

/-- The caption loop of get_round: for each participant index, look up the
address and the caption, and render the text or the hidden placeholder. -/
def buildCaptionViews (s : State) (rid : String) (visible : Bool) :
    List Nat → Except String (List CaptionView)
  | [] => .ok []
  | i :: rest =>
    match lookupA s.round_participant_addresses (rid, i) with
    | none => .error "KeyError: participant"
    | some addr =>
      match lookupA s.round_captions (rid, addr) with
      | none => .error "KeyError: caption"
      | some cap =>
        match buildCaptionViews s rid visible rest with
        | .error e => .error e
        | .ok tail =>
          .ok (⟨addr, if visible then cap.text else "[Hidden]", cap.submitted_at⟩ :: tail)

/-- get_round, from the tutorial source: captions are visible once the
deadline has passed or the round is resolved; participant_count is the
length of the rendered caption list. -/
def get_round (s : State) (now : Nat) (rid : String) :
    Except String RoundView :=
  match lookupA s.rounds rid with
  | none => .error "Round not found"
  | some rd =>
    let visible : Bool := rd.submission_deadline < now || rd.resolved
    match buildCaptionViews s rid visible (List.range (cntOf s rid)) with
    | .error e => .error e
    | .ok views =>
      .ok ⟨rd.round_id, rd.image_url, rd.category, rd.creator, rd.created_at,
           rd.submission_deadline, rd.resolved, views, views.length⟩

/-- One leaderboard entry. -/
structure LBEntry where
  address : String
  xp : Nat
deriving Repr, DecidableEq

/-- The inner pass of the selection sort in get_leaderboard: j runs over
the tail and swaps the element at i with any strictly larger one; the first
component is the value left at position i, the second the updated tail. -/
def innerPass : LBEntry → List LBEntry → LBEntry × List LBEntry
  | x, [] => (x, [])
  | x, y :: ys =>
    if x.xp < y.xp then
      let p := innerPass y ys
      (p.1, x :: p.2)
    else
      let p := innerPass x ys
      (p.1, y :: p.2)

theorem innerPass_snd_length (x : LBEntry) (ys : List LBEntry) :
    (innerPass x ys).2.length = ys.length := by
  induction ys generalizing x with
  | nil => rfl
  | cons y ys ih =>
    simp only [innerPass]
    split <;> simp [ih]

/-- The double swap loop of get_leaderboard as a recursion over the list:
each outer step leaves the maximum of the remaining suffix at the front.
The fuel argument is the number of outer iterations, i.e. the list length;
innerPass preserves length, so the fuel never runs out early. -/
def selSortF : Nat → List LBEntry → List LBEntry
  | 0, _ => []
  | _ + 1, [] => []
  | n + 1, x :: xs =>
    let p := innerPass x xs
    p.1 :: selSortF n p.2

/-- The selection sort of get_leaderboard. -/
def selSort (l : List LBEntry) : List LBEntry := selSortF l.length l

/-- get_leaderboard, from the tutorial source: every player in player_list
with its score, sorted by XP, highest first. -/
def get_leaderboard (s : State) : List LBEntry :=
  selSort (s.player_list.map (fun a => ⟨a, xpOf s a⟩))

/-- One successful state-changing operation of the contract. -/
inductive Step : State → State → Prop where
  | create (s s' : State) (sender : String) (now : Nat)
      (rid url cat : String) :
      create_round s sender now rid url cat = .ok s' → Step s s'
  | submit (s s' : State) (sender : String) (now : Nat) (rid text : String) :
      submit_caption s sender now rid text = .ok s' → Step s s'
  | resolve (s s' : State) (now : Nat) (rid : String)
      (soloReps : List (List Char)) (agreed : Option (List Char)) :
      resolve_round s now rid soloReps agreed = .ok s' → Step s s'
  | cancel (s s' : State) (sender : String) (rid : String) :
      cancel_round s sender rid = .ok s' → Step s s'

/-- States reachable from the freshly deployed contract. -/
inductive Reachable : State → Prop where
  | init : Reachable initState
  | step {s s' : State} : Reachable s → Step s s' → Reachable s'

theorem lookupA_setA_self {K V : Type} [DecidableEq K]
    (l : List (K × V)) (k : K) (v : V) : lookupA (setA l k v) k = some v := by
  induction l with
  | nil => simp [setA, lookupA]
  | cons kv rest ih =>
    obtain ⟨k', v'⟩ := kv
    by_cases h : k' = k
    · simp [setA, lookupA, h]
    · simp [setA, lookupA, h, ih]

theorem lookupA_setA_ne {K V : Type} [DecidableEq K]
    (l : List (K × V)) (k k' : K) (v : V) (h : k' ≠ k) :
    lookupA (setA l k v) k' = lookupA l k' := by
  induction l with
  | nil => simp [setA, lookupA, Ne.symm h]
  | cons kv rest ih =>
    obtain ⟨k0, v0⟩ := kv
    by_cases h0 : k0 = k
    · subst h0
      simp [setA, lookupA, Ne.symm h]
    · simp only [setA, if_neg h0, lookupA]
      by_cases h1 : k0 = k'
      · simp [h1]
      · simp [h1, ih]

theorem setA_of_lookup_none {K V : Type} [DecidableEq K]
    (l : List (K × V)) (k : K) (v : V) (h : lookupA l k = none) :
    setA l k v = l ++ [(k, v)] := by
  induction l with
  | nil => simp [setA]
  | cons kv rest ih =>
    obtain ⟨k0, v0⟩ := kv
    by_cases h0 : k0 = k
    · simp [lookupA, h0] at h
    · simp only [lookupA, if_neg h0] at h
      simp [setA, h0, ih h]

theorem lookupA_mem {K V : Type} [DecidableEq K]
    {l : List (K × V)} {k : K} {v : V} (h : lookupA l k = some v) :
    (k, v) ∈ l := by
  induction l with
  | nil => simp [lookupA] at h
  | cons kv rest ih =>
    obtain ⟨k0, v0⟩ := kv
    by_cases h0 : k0 = k
    · subst h0
      simp only [lookupA, if_pos, Option.some.injEq] at h
      rw [← h]
      exact List.mem_cons_self _ _
    · simp only [lookupA, if_neg h0] at h
      exact List.mem_cons_of_mem _ (ih h)

theorem award_xp_rounds (s : State) (p : String) (n : Nat) :
    (award_xp s p n).rounds = s.rounds := by
  simp only [award_xp]
  split <;> rfl

theorem award_xp_captions (s : State) (p : String) (n : Nat) :
    (award_xp s p n).round_captions = s.round_captions := by
  simp only [award_xp]
  split <;> rfl

theorem award_xp_addresses (s : State) (p : String) (n : Nat) :
    (award_xp s p n).round_participant_addresses = s.round_participant_addresses := by
  simp only [award_xp]
  split <;> rfl

theorem award_xp_counts (s : State) (p : String) (n : Nat) :
    (award_xp s p n).round_participant_counts = s.round_participant_counts := by
  simp only [award_xp]
  split <;> rfl

theorem award_xp_results (s : State) (p : String) (n : Nat) :
    (award_xp s p n).round_results = s.round_results := by
  simp only [award_xp]
  split <;> rfl

theorem xpOf_award_self (s : State) (p : String) (n : Nat) :
    xpOf (award_xp s p n) p = xpOf s p + n := by
  simp only [award_xp, xpOf]
  split
  · simp [lookupA_setA_self]
  · simp [lookupA_setA_self]
    rename_i h
    rw [Option.isSome_iff_exists] at h
    push_neg at h
    cases hl : lookupA s.xp_scores p with
    | none => simp
    | some v => exact absurd hl (h v)

theorem xpOf_award_ne (s : State) (p q : String) (n : Nat) (h : q ≠ p) :
    xpOf (award_xp s p n) q = xpOf s q := by
  simp only [award_xp, xpOf]
  split
  · simp [lookupA_setA_ne _ _ _ _ h]
  · simp [lookupA_setA_ne _ _ _ _ h]

/-- The participation loop of the reward block. -/
def awardAll (s : State) (l : List String) (n : Nat) : State :=
  l.foldl (fun st a => award_xp st a n) s

theorem awardAll_rounds (l : List String) (s : State) (n : Nat) :
    (awardAll s l n).rounds = s.rounds := by
  induction l generalizing s with
  | nil => rfl
  | cons a l ih => simp [awardAll, List.foldl_cons] at ih ⊢; rw [ih, award_xp_rounds]

theorem awardAll_captions (l : List String) (s : State) (n : Nat) :
    (awardAll s l n).round_captions = s.round_captions := by
  induction l generalizing s with
  | nil => rfl
  | cons a l ih => simp [awardAll, List.foldl_cons] at ih ⊢; rw [ih, award_xp_captions]

theorem awardAll_addresses (l : List String) (s : State) (n : Nat) :
    (awardAll s l n).round_participant_addresses = s.round_participant_addresses := by
  induction l generalizing s with
  | nil => rfl
  | cons a l ih => simp [awardAll, List.foldl_cons] at ih ⊢; rw [ih, award_xp_addresses]

theorem awardAll_counts (l : List String) (s : State) (n : Nat) :
    (awardAll s l n).round_participant_counts = s.round_participant_counts := by
  induction l generalizing s with
  | nil => rfl
  | cons a l ih => simp [awardAll, List.foldl_cons] at ih ⊢; rw [ih, award_xp_counts]

theorem awardAll_results (l : List String) (s : State) (n : Nat) :
    (awardAll s l n).round_results = s.round_results := by
  induction l generalizing s with
  | nil => rfl
  | cons a l ih => simp [awardAll, List.foldl_cons] at ih ⊢; rw [ih, award_xp_results]

theorem awardAll_cons (s : State) (b : String) (l : List String) (n : Nat) :
    awardAll s (b :: l) n = awardAll (award_xp s b n) l n := rfl

theorem awardAll_closure (P : State → Prop) (l : List String) (s : State)
    (n : Nat) (hP : ∀ st p m, P st → P (award_xp st p m)) (hs : P s) :
    P (awardAll s l n) := by
  induction l generalizing s with
  | nil => exact hs
  | cons b l ih =>
    rw [awardAll_cons]
    exact ih _ (hP s b n hs)

theorem xpOf_awardAll_not_mem (l : List String) (s : State) (n : Nat)
    (a : String) (h : a ∉ l) : xpOf (awardAll s l n) a = xpOf s a := by
  induction l generalizing s with
  | nil => rfl
  | cons b l ih =>
    have hab : a ≠ b := fun hh => h (hh ▸ List.mem_cons_self _ _)
    have hnl : a ∉ l := fun hh => h (List.mem_cons_of_mem _ hh)
    rw [awardAll_cons, ih _ hnl, xpOf_award_ne _ _ _ _ hab]

theorem xpOf_awardAll_mem (l : List String) (s : State) (n : Nat)
    (a : String) (hmem : a ∈ l) (hnd : l.Nodup) :
    xpOf (awardAll s l n) a = xpOf s a + n := by
  induction l generalizing s with
  | nil => cases hmem
  | cons b l ih =>
    rw [awardAll_cons]
    rcases List.mem_cons.mp hmem with h | h
    · subst h
      have hnl : a ∉ l := (List.nodup_cons.mp hnd).1
      rw [xpOf_awardAll_not_mem l _ n a hnl, xpOf_award_self]
    · have hab : a ≠ b := by
        rintro rfl
        exact (List.nodup_cons.mp hnd).1 h
      rw [ih _ h (List.nodup_cons.mp hnd).2, xpOf_award_ne _ _ _ _ hab]

theorem finalizeResolve_results_self (s : State) (rid : String) (rd : Round)
    (res : RoundResult) :
    lookupA (finalizeResolve s rid rd res).round_results rid = some res := by
  simp [finalizeResolve, lookupA_setA_self]

theorem finalizeResolve_xp (s : State) (rid : String) (rd : Round)
    (res : RoundResult) (a : String) :
    xpOf (finalizeResolve s rid rd res) a = xpOf s a := rfl

theorem gather_ok_length (s : State) (rid : String) (l : List Nat)
    (ce ia : List (String × String)) (h : gather s rid l = .ok (ce, ia)) :
    ce.length = l.length ∧ ia.length = l.length := by
  induction l generalizing ce ia with
  | nil =>
    simp only [gather] at h
    cases h
    simp
  | cons i rest ih =>
    simp only [gather] at h
    split at h
    · cases h
    split at h
    · cases h
    split at h
    · cases h
    rename_i addr ha cap hc ce' ia' hg
    cases h
    obtain ⟨h1, h2⟩ := ih ce' ia' hg
    simp [h1, h2]

theorem gather_captions_exist (s : State) (rid : String) (l : List Nat)
    (ce ia : List (String × String)) (h : gather s rid l = .ok (ce, ia)) :
    ∀ kv ∈ ia, ∃ cap, lookupA s.round_captions (rid, kv.2) = some cap := by
  induction l generalizing ce ia with
  | nil =>
    simp only [gather] at h
    cases h
    intro kv hkv
    cases hkv
  | cons i rest ih =>
    simp only [gather] at h
    split at h
    · cases h
    split at h
    · cases h
    split at h
    · cases h
    cases h
    intro kv hkv
    rcases List.mem_cons.mp hkv with h0 | h0
    · subst h0
      exact ⟨_, by assumption⟩
    · exact ih _ _ (by assumption) kv h0

theorem parseAgreed_ok_mem (raw : List Char) (table : List (String × String))
    (wa ra : String) (h : parseAgreed raw table = .ok (wa, ra)) :
    wa ∈ table.map Prod.snd ∧ ra ∈ table.map Prod.snd := by
  simp only [parseAgreed] at h
  split at h
  · cases h
  split at h
  · cases h
  split at h
  · cases h
  split at h
  rotate_left
  · cases h
  split at h
  rotate_left
  · cases h
  split at h
  rotate_left
  · cases h
  split at h
  rotate_left
  · cases h
  cases h
  exact ⟨List.mem_map.mpr ⟨(_, wa), lookupA_mem (by assumption), rfl⟩,
         List.mem_map.mpr ⟨(_, ra), lookupA_mem (by assumption), rfl⟩⟩

theorem buildCaptionViews_ok_length (s : State) (rid : String) (visible : Bool)
    (l : List Nat) (views : List CaptionView)
    (h : buildCaptionViews s rid visible l = .ok views) :
    views.length = l.length := by
  induction l generalizing views with
  | nil =>
    simp only [buildCaptionViews] at h
    cases h
    rfl
  | cons i rest ih =>
    simp only [buildCaptionViews] at h
    split at h
    · cases h
    split at h
    · cases h
    split at h
    · cases h
    cases h
    simp [ih _ (by assumption)]

theorem buildCaptionViews_hidden (s : State) (rid : String)
    (l : List Nat) (views : List CaptionView)
    (h : buildCaptionViews s rid false l = .ok views) :
    ∀ cv ∈ views, cv.text = "[Hidden]" := by
  induction l generalizing views with
  | nil =>
    simp only [buildCaptionViews] at h
    cases h
    intro cv hcv
    cases hcv
  | cons i rest ih =>
    simp only [buildCaptionViews] at h
    split at h
    · cases h
    split at h
    · cases h
    split at h
    · cases h
    cases h
    intro cv hcv
    rcases List.mem_cons.mp hcv with h0 | h0
    · subst h0
      rfl
    · exact ih _ (by assumption) cv h0

theorem buildCaptionViews_visible (s : State) (rid : String)
    (l : List Nat) (views : List CaptionView)
    (h : buildCaptionViews s rid true l = .ok views) :
    ∀ cv ∈ views, ∃ cap, lookupA s.round_captions (rid, cv.author) = some cap ∧
      cv.text = cap.text := by
  induction l generalizing views with
  | nil =>
    simp only [buildCaptionViews] at h
    cases h
    intro cv hcv
    cases hcv
  | cons i rest ih =>
    simp only [buildCaptionViews] at h
    split at h
    · cases h
    split at h
    · cases h
    split at h
    · cases h
    cases h
    intro cv hcv
    rcases List.mem_cons.mp hcv with h0 | h0
    · subst h0
      exact ⟨_, by assumption, rfl⟩
    · exact ih _ (by assumption) cv h0

theorem innerPass_perm (x : LBEntry) (ys : List LBEntry) :
    ((innerPass x ys).1 :: (innerPass x ys).2).Perm (x :: ys) := by
  induction ys generalizing x with
  | nil => simp [innerPass]
  | cons y ys ih =>
    simp only [innerPass]
    split
    · exact (List.Perm.swap x ((innerPass y ys).1) ((innerPass y ys).2)).trans
        ((ih y).cons x)
    · exact ((List.Perm.swap y ((innerPass x ys).1) ((innerPass x ys).2)).trans
        ((ih x).cons y)).trans (List.Perm.swap x y ys)

theorem innerPass_fst_ge (x : LBEntry) (ys : List LBEntry) :
    x.xp ≤ (innerPass x ys).1.xp ∧
      ∀ z ∈ (innerPass x ys).2, z.xp ≤ (innerPass x ys).1.xp := by
  induction ys generalizing x with
  | nil => simp [innerPass]
  | cons y ys ih =>
    simp only [innerPass]
    split
    · rename_i hlt
      obtain ⟨h1, h2⟩ := ih y
      refine ⟨le_trans (le_of_lt hlt) h1, ?_⟩
      intro z hz
      rcases List.mem_cons.mp hz with h0 | h0
      · subst h0
        exact le_trans (le_of_lt hlt) h1
      · exact h2 z h0
    · rename_i hge
      obtain ⟨h1, h2⟩ := ih x
      refine ⟨h1, ?_⟩
      intro z hz
      rcases List.mem_cons.mp hz with h0 | h0
      · subst h0
        exact le_trans (le_of_not_lt hge) h1
      · exact h2 z h0

theorem selSortF_perm :
    ∀ (n : Nat) (l : List LBEntry), l.length = n → (selSortF n l).Perm l
  | _, [], h => by subst h; simp [selSortF]
  | n, x :: xs, h => by
    subst h
    simp only [List.length_cons, selSortF]
    have hlen : (innerPass x xs).2.length = xs.length := innerPass_snd_length x xs
    have ih := selSortF_perm xs.length (innerPass x xs).2 hlen
    rw [← hlen]
    exact ((hlen ▸ ih).cons (innerPass x xs).1).trans (innerPass_perm x xs)

theorem selSort_perm (l : List LBEntry) : (selSort l).Perm l :=
  selSortF_perm l.length l rfl

theorem selSortF_sorted :
    ∀ (n : Nat) (l : List LBEntry), l.length = n →
      List.Sorted (fun a b : LBEntry => b.xp ≤ a.xp) (selSortF n l)
  | _, [], h => by subst h; simp [selSortF]
  | n, x :: xs, h => by
    subst h
    simp only [List.length_cons, selSortF]
    have hlen : (innerPass x xs).2.length = xs.length := innerPass_snd_length x xs
    have ih := selSortF_sorted xs.length (innerPass x xs).2 hlen
    refine List.sorted_cons.mpr ⟨?_, hlen ▸ ih⟩
    intro b hb
    have hb' : b ∈ (innerPass x xs).2 :=
      (selSortF_perm xs.length _ hlen).mem_iff.mp hb
    exact (innerPass_fst_ge x xs).2 b hb'

theorem selSort_sorted (l : List LBEntry) :
    List.Sorted (fun a b : LBEntry => b.xp ≤ a.xp) (selSort l) :=
  selSortF_sorted l.length l rfl

/-- Outcome analysis of resolve_round_raw: every failing run leaves the
state exactly as it was, and every successful run ends in the finalize
block applied to a state whose round/caption/participant maps are
untouched. -/
theorem resolve_raw_spec (s : State) (now : Nat) (rid : String)
    (reps : List (List Char)) (ag : Option (List Char)) :
    (∃ e, resolve_round_raw s now rid reps ag = (s, .error e)) ∨
    (∃ rd res s1,
       lookupA s.rounds rid = some rd ∧ rd.cancelled = false ∧
       rd.resolved = false ∧ rd.submission_deadline < now ∧
       cntOf s rid ≠ 0 ∧
       s1.rounds = s.rounds ∧ s1.round_captions = s.round_captions ∧
       s1.round_participant_addresses = s.round_participant_addresses ∧
       s1.round_participant_counts = s.round_participant_counts ∧
       s1.round_results = s.round_results ∧
       (∀ P : State → Prop,
         (∀ st p m, P st → P (award_xp st p m)) → P s → P s1) ∧
       resolve_round_raw s now rid reps ag = (finalizeResolve s1 rid rd res, .ok ())) := by
  rcases hrd : lookupA s.rounds rid with _ | rd
  · exact .inl ⟨"Round not found", by simp [resolve_round_raw, hrd]⟩
  rcases hcan : rd.cancelled
  rotate_left
  · exact .inl ⟨"StateError: round was cancelled",
      by simp [resolve_round_raw, hrd, hcan]⟩
  rcases hres : rd.resolved
  rotate_left
  · exact .inl ⟨"StateError: round already resolved",
      by simp [resolve_round_raw, hrd, hcan, hres]⟩
  by_cases hdl : rd.submission_deadline < now
  rotate_left
  · exact .inl ⟨"StateError: submission deadline has not passed",
      by simp [resolve_round_raw, hrd, hcan, hres, hdl]⟩
  by_cases hcnt : cntOf s rid = 0
  · exact .inl ⟨"StateError: need at least 1 participant",
      by simp [resolve_round_raw, hrd, hcan, hres, hdl, hcnt]⟩
  rcases hg : gather s rid (List.range (cntOf s rid)) with e | ⟨ce, ia⟩
  · exact .inl ⟨e, by simp [resolve_round_raw, hrd, hcan, hres, hdl, hcnt, hg]⟩
  by_cases hone : cntOf s rid = 1
  · rw [hone] at hg
    rcases hsa : soloAgreement reps with e | score
    · exact .inl ⟨e,
        by simp [resolve_round_raw, hrd, hcan, hres, hdl, hcnt, hg, hone, hsa]⟩
    · obtain ⟨hcel, hial⟩ := gather_ok_length s rid _ ce ia hg
      rcases ia with _ | ⟨⟨l0, a0⟩, ia'⟩
      · simp at hial
      rcases ce with _ | ⟨⟨l1, t0⟩, ce'⟩
      · simp at hcel
      refine .inr ⟨rd, ⟨a0, none, t0, none, now, true, some score⟩,
        award_xp s a0 (3 + score * 15 / 10), rfl, hcan, hres, hdl, hcnt,
        award_xp_rounds _ _ _, award_xp_captions _ _ _, award_xp_addresses _ _ _,
        award_xp_counts _ _ _, award_xp_results _ _ _,
        fun P hP hs => hP _ _ _ hs, ?_⟩
      simp [resolve_round_raw, hrd, hcan, hres, hdl, hcnt, hg, hone, hsa]
  · rcases ag with _ | raw
    · exact .inl ⟨"Validators could not reach agreement",
        by simp [resolve_round_raw, hrd, hcan, hres, hdl, hcnt, hg, hone]⟩
    rcases hp : parseAgreed raw ia with e | ⟨wa, ra⟩
    · exact .inl ⟨e,
        by simp [resolve_round_raw, hrd, hcan, hres, hdl, hcnt, hg, hone, hp]⟩
    have hmem := parseAgreed_ok_mem raw ia wa ra hp
    have hwc : ∃ cap, lookupA s.round_captions (rid, wa) = some cap := by
      obtain ⟨kv, hkv, hkv2⟩ := List.mem_map.mp hmem.1
      subst hkv2
      exact gather_captions_exist s rid _ ce ia hg kv hkv
    have hrc : ∃ cap, lookupA s.round_captions (rid, ra) = some cap := by
      obtain ⟨kv, hkv, hkv2⟩ := List.mem_map.mp hmem.2
      subst hkv2
      exact gather_captions_exist s rid _ ce ia hg kv hkv
    obtain ⟨wc, hwc⟩ := hwc
    obtain ⟨rc, hrc⟩ := hrc
    have hc1 : (award_xp (award_xp
        (List.foldl (fun st a => award_xp st a 3) s (List.map Prod.snd ia)) wa 12)
          ra 5).round_captions = s.round_captions := by
      rw [award_xp_captions, award_xp_captions]
      exact awardAll_captions (List.map Prod.snd ia) s 3
    refine .inr ⟨rd, ⟨wa, some ra, wc.text, some rc.text, now, false, none⟩,
      award_xp (award_xp (awardAll s (ia.map Prod.snd) 3) wa (15 - 3)) ra (8 - 3),
      rfl, hcan, hres, hdl, hcnt, ?_, ?_, ?_, ?_, ?_,
      fun P hP hs => hP _ _ _ (hP _ _ _ (awardAll_closure P _ s 3 hP hs)), ?_⟩
    · rw [award_xp_rounds, award_xp_rounds]
      exact awardAll_rounds _ _ _
    · rw [award_xp_captions, award_xp_captions]
      exact awardAll_captions _ _ _
    · rw [award_xp_addresses, award_xp_addresses]
      exact awardAll_addresses _ _ _
    · rw [award_xp_counts, award_xp_counts]
      exact awardAll_counts _ _ _
    · rw [award_xp_results, award_xp_results]
      exact awardAll_results _ _ _
    · simp only [resolve_round_raw, hrd, hcan, hres, hdl, hcnt, hg, hone]
      simp [hp, hc1, hwc, hrc, awardAll]

/-- Success inversion for resolve_round: the validation facts and the shape
of the final state. -/
theorem resolve_ok_shape {s : State} {now : Nat} {rid : String}
    {reps : List (List Char)} {ag : Option (List Char)} {s' : State}
    (h : resolve_round s now rid reps ag = .ok s') :
    ∃ rd res,
      lookupA s.rounds rid = some rd ∧ rd.cancelled = false ∧
      rd.resolved = false ∧ rd.submission_deadline < now ∧
      s'.rounds = setA s.rounds rid { rd with resolved := true } ∧
      s'.round_captions = s.round_captions ∧
      s'.round_participant_addresses = s.round_participant_addresses ∧
      s'.round_participant_counts = s.round_participant_counts ∧
      s'.round_results = setA s.round_results rid res := by
  rcases resolve_raw_spec s now rid reps ag with ⟨e, hE⟩ |
    ⟨rd, res, s1, h1, h2, h3, h4, h5, hr, hc, ha, hcn, hrs, _, hEq⟩
  · rw [resolve_round, hE] at h
    cases h
  · rw [resolve_round, hEq] at h
    cases h
    exact ⟨rd, res, h1, h2, h3, h4,
      by simp [finalizeResolve, hr], by simp [finalizeResolve, hc],
      by simp [finalizeResolve, ha], by simp [finalizeResolve, hcn],
      by simp [finalizeResolve, hrs]⟩

/-- Success inversion for create_round. -/
theorem create_ok_inv {s : State} {sender : String} {now : Nat}
    {rid url cat : String} {s' : State}
    (h : create_round s sender now rid url cat = .ok s') :
    lookupA s.rounds rid = none ∧ pyStartsWith url "https://" = true ∧
    cat ∈ validCategories ∧
    s' = { s with
      rounds := setA s.rounds rid
        ⟨rid, url, cat, sender, now, now + 300, false, false⟩,
      round_counter := s.round_counter + 1 } := by
  simp only [create_round] at h
  split at h
  · cases h
  split at h
  · cases h
  split at h
  · cases h
  cases h
  rename_i h1 h2 h3
  refine ⟨Option.not_isSome_iff_eq_none.mp h1, ?_, ?_, rfl⟩
  · by_contra hh
    exact h2 (by simpa using hh)
  · by_contra hh
    exact h3 hh

/-- Success inversion for submit_caption. -/
theorem submit_ok_inv {s : State} {sender : String} {now : Nat}
    {rid text : String} {s' : State}
    (h : submit_caption s sender now rid text = .ok s') :
    ∃ rd, lookupA s.rounds rid = some rd ∧
      ¬ rd.submission_deadline < now ∧
      lookupA s.round_captions (rid, sender) = none ∧
      text.length ≠ 0 ∧ ¬ 280 < text.length ∧
      s' = { s with
        round_captions :=
          setA s.round_captions (rid, sender) ⟨sender, text, now⟩,
        round_participant_addresses :=
          setA s.round_participant_addresses (rid, cntOf s rid) sender,
        round_participant_counts :=
          setA s.round_participant_counts rid (cntOf s rid + 1) } := by
  simp only [submit_caption] at h
  split at h
  · cases h
  rename_i rd hrd
  split at h
  · cases h
  split at h
  · cases h
  split at h
  · cases h
  split at h
  · cases h
  cases h
  rename_i h1 h2 h3 h4
  exact ⟨rd, hrd, h1, Option.not_isSome_iff_eq_none.mp h2, h3, h4, rfl⟩

/-- Success inversion for cancel_round. -/
theorem cancel_ok_inv {s : State} {sender rid : String} {s' : State}
    (h : cancel_round s sender rid = .ok s') :
    ∃ rd, lookupA s.rounds rid = some rd ∧ sender = rd.creator ∧
      rd.resolved = false ∧
      s' = { s with rounds := setA s.rounds rid { rd with cancelled := true } } := by
  simp only [cancel_round] at h
  split at h
  · cases h
  rename_i rd hrd
  split at h
  · cases h
  split at h
  · cases h
  cases h
  rename_i h1 h2
  exact ⟨rd, hrd, not_not.mp h1, Bool.not_eq_true _ ▸ (by simpa using h2), rfl⟩

/-- Every operation preserves the submission deadline of every stored
round, and never un-cancels a cancelled round. -/
theorem step_round_flags {s s' : State} (hstep : Step s s') :
    ∀ r rd, lookupA s.rounds r = some rd →
      ∃ rd', lookupA s'.rounds r = some rd' ∧
        rd'.submission_deadline = rd.submission_deadline ∧
        (rd.cancelled = true → rd'.cancelled = true) := by
  intro r rd hr
  cases hstep with
  | create sender now rid url cat h =>
    obtain ⟨hnone, _, _, hs'⟩ := create_ok_inv h
    subst hs'
    have hne : r ≠ rid := by
      rintro rfl
      rw [hr] at hnone
      cases hnone
    refine ⟨rd, ?_, rfl, fun h => h⟩
    simp [lookupA_setA_ne _ _ _ _ hne, hr]
  | submit sender now rid text h =>
    obtain ⟨rd0, _, _, _, _, _, hs'⟩ := submit_ok_inv h
    subst hs'
    exact ⟨rd, hr, rfl, fun h => h⟩
  | resolve now rid reps ag h =>
    obtain ⟨rd0, res, hrd0, hcan0, _, _, hrds, _, _, _, _⟩ := resolve_ok_shape h
    by_cases hne : r = rid
    · subst hne
      rw [hr] at hrd0
      cases hrd0
      refine ⟨{ rd with resolved := true }, ?_, rfl, fun h => h⟩
      rw [hrds]
      exact lookupA_setA_self _ _ _
    · refine ⟨rd, ?_, rfl, fun h => h⟩
      rw [hrds, lookupA_setA_ne _ _ _ _ hne]
      exact hr
  | cancel sender rid h =>
    obtain ⟨rd0, hrd0, _, _, hs'⟩ := cancel_ok_inv h
    subst hs'
    by_cases hne : r = rid
    · subst hne
      rw [hr] at hrd0
      cases hrd0
      refine ⟨{ rd with cancelled := true }, ?_, rfl, fun _ => rfl⟩
      exact lookupA_setA_self _ _ _
    · refine ⟨rd, ?_, rfl, fun h => h⟩
      simp [lookupA_setA_ne _ _ _ _ hne, hr]

/-- Bookkeeping invariant tying together the participant count, the
participant index and the caption store of every round. -/
def Inv (s : State) : Prop :=
  ∀ r : String,
    (∀ i : Nat,
      (lookupA s.round_participant_addresses (r, i)).isSome ↔ i < cntOf s r) ∧
    (s.round_participant_addresses.filter
      (fun kv => kv.1.1 = r)).length = cntOf s r ∧
    (s.round_captions.filter (fun kv => kv.1.1 = r)).length = cntOf s r

theorem inv_init : Inv initState := by
  intro r
  refine ⟨fun i => ?_, rfl, rfl⟩
  simp [initState, lookupA, cntOf]

theorem inv_preserved {s s' : State} (hstep : Step s s') (hinv : Inv s) :
    Inv s' := by
  cases hstep with
  | create sender now rid url cat h =>
    obtain ⟨_, _, _, hs'⟩ := create_ok_inv h
    subst hs'
    intro r
    exact hinv r
  | submit sender now rid text h =>
    obtain ⟨rd, _, _, hdup, _, _, hs'⟩ := submit_ok_inv h
    subst hs'
    intro r
    obtain ⟨hidx, hflt, hcap⟩ := hinv r
    have hfresh : lookupA s.round_participant_addresses (rid, cntOf s rid) = none := by
      rcases hl : lookupA s.round_participant_addresses (rid, cntOf s rid) with _ | a
      · rfl
      · have := (hinv rid).1 (cntOf s rid)
        rw [hl] at this
        simp at this
    by_cases hr : r = rid
    · subst hr
      have hcnt' : cntOf { s with
          round_captions := setA s.round_captions (r, sender) ⟨sender, text, now⟩,
          round_participant_addresses :=
            setA s.round_participant_addresses (r, cntOf s r) sender,
          round_participant_counts :=
            setA s.round_participant_counts r (cntOf s r + 1) } r = cntOf s r + 1 := by
        simp [cntOf, lookupA_setA_self]
      refine ⟨fun i => ?_, ?_, ?_⟩
      · rw [hcnt']
        by_cases hi : i = cntOf s r
        · subst hi
          simp [lookupA_setA_self]
        · have : (r, i) ≠ (r, cntOf s r) := by
            simp [hi]
          rw [lookupA_setA_ne _ _ _ _ this]
          rw [hidx i]
          omega
      · rw [hcnt']
        rw [setA_of_lookup_none _ _ _ hfresh]
        simp only [List.filter_append, List.length_append]
        rw [hflt]
        simp
      · rw [hcnt']
        rw [setA_of_lookup_none _ _ _ hdup]
        simp only [List.filter_append, List.length_append]
        rw [hcap]
        simp
    · have hcnt' : cntOf { s with
          round_captions := setA s.round_captions (rid, sender) ⟨sender, text, now⟩,
          round_participant_addresses :=
            setA s.round_participant_addresses (rid, cntOf s rid) sender,
          round_participant_counts :=
            setA s.round_participant_counts rid (cntOf s rid + 1) } r = cntOf s r := by
        simp [cntOf, lookupA_setA_ne _ _ _ _ hr]
      refine ⟨fun i => ?_, ?_, ?_⟩
      · rw [hcnt']
        have : (r, i) ≠ (rid, cntOf s rid) := by
          simp [hr]
        rw [lookupA_setA_ne _ _ _ _ this]
        exact hidx i
      · rw [hcnt']
        rw [setA_of_lookup_none _ _ _ hfresh]
        simp only [List.filter_append, List.length_append]
        rw [hflt]
        simp [Ne.symm hr]
      · rw [hcnt']
        rw [setA_of_lookup_none _ _ _ hdup]
        simp only [List.filter_append, List.length_append]
        rw [hcap]
        simp [Ne.symm hr]
  | resolve now rid reps ag h =>
    obtain ⟨rd, res, _, _, _, _, _, hc, ha, hcn, _⟩ := resolve_ok_shape h
    intro r
    obtain ⟨hidx, hflt, hcap⟩ := hinv r
    have hcnt' : cntOf s' r = cntOf s r := by
      simp [cntOf, hcn]
    rw [hc, ha, hcnt']
    exact ⟨hidx, hflt, hcap⟩
  | cancel sender rid h =>
    obtain ⟨rd, _, _, _, hs'⟩ := cancel_ok_inv h
    subst hs'
    intro r
    exact hinv r

theorem award_xp_ledger (s : State) (p : String) (n : Nat)
    (hs : ∀ a, (lookupA s.xp_scores a).isSome ↔ a ∈ s.player_list) :
    ∀ a, (lookupA (award_xp s p n).xp_scores a).isSome ↔
      a ∈ (award_xp s p n).player_list := by
  intro a
  by_cases hp : (lookupA s.xp_scores p).isSome
  · simp only [award_xp, if_pos hp]
    by_cases hap : a = p
    · subst hap
      simp [lookupA_setA_self, (hs a).mp hp]
    · rw [lookupA_setA_ne _ _ _ _ hap]
      exact hs a
  · simp only [award_xp, if_neg hp]
    by_cases hap : a = p
    · subst hap
      simp [lookupA_setA_self]
    · rw [lookupA_setA_ne _ _ _ _ hap, lookupA_setA_ne _ _ _ _ hap]
      simp [List.mem_append, hap, hs a]

/-- The ledger membership invariant: a player has an XP entry exactly when
present in player_list (the set _award_xp maintains). -/
theorem reachable_ledger {s : State} (h : Reachable s) :
    ∀ a, (lookupA s.xp_scores a).isSome ↔ a ∈ s.player_list := by
  induction h with
  | init =>
    intro a
    simp [initState, lookupA]
  | step hre hstep ih =>
    rename_i s s'
    cases hstep with
    | create sender now rid url cat h =>
      obtain ⟨_, _, _, hs'⟩ := create_ok_inv h
      subst hs'
      exact ih
    | submit sender now rid text h =>
      obtain ⟨rd, _, _, _, _, _, hs'⟩ := submit_ok_inv h
      subst hs'
      exact ih
    | resolve now rid reps ag h =>
      rcases resolve_raw_spec s now rid reps ag with ⟨e, hE⟩ |
        ⟨rd, res, s1, _, _, _, _, _, _, _, _, _, _, hcl, hEq⟩
      · rw [resolve_round, hE] at h
        cases h
      · rw [resolve_round, hEq] at h
        cases h
        exact hcl (fun st => ∀ a, (lookupA st.xp_scores a).isSome ↔ a ∈ st.player_list)
          (fun st p m hst => award_xp_ledger st p m hst) ih
    | cancel sender rid h =>
      obtain ⟨rd, _, _, _, hs'⟩ := cancel_ok_inv h
      subst hs'
      exact ih

theorem reachable_inv {s : State} (h : Reachable s) : Inv s := by
  induction h with
  | init => exact inv_init
  | step _ hstep ih => exact inv_preserved hstep ih

/-- Concrete round used by the witness scenarios: created by alice at time
100, deadline 400. -/
def wRound1 : Round :=
  ⟨"r1", "https://img", "Funniest", "alice", 100, 400, false, false⟩

/-- State after create_round: one round, no captions. -/
def wS1 : State :=
  { initState with rounds := [("r1", wRound1)], round_counter := 1 }

/-- State after bob submits "cat": one participant. -/
def wS2 : State :=
  { wS1 with
    round_captions := [(("r1", "bob"), ⟨"bob", "cat", 150⟩)],
    round_participant_addresses := [(("r1", 0), "bob")],
    round_participant_counts := [("r1", 1)] }

/-- State after carol also submits "dog": two participants. -/
def wS3 : State :=
  { wS1 with
    round_captions := [(("r1", "bob"), ⟨"bob", "cat", 150⟩),
                       (("r1", "carol"), ⟨"carol", "dog", 160⟩)],
    round_participant_addresses := [(("r1", 0), "bob"), (("r1", 1), "carol")],
    round_participant_counts := [("r1", 2)] }

/-- Claim C2: whenever resolve_round fails at any step, the run leaves
every storage field exactly as it was (so the resolved flag is unchanged
and the call may be retried); the transactional wrapper reports the same
error.  In this embedding the mutations of the source are applied eagerly
in program order, so this is a theorem about the code, not a modelling
assumption. -/
theorem claim2_resolve_failure_atomic :
    ∀ (s : State) (now : Nat) (rid : String) (reps : List (List Char))
      (ag : Option (List Char)) (e : String),
      (resolve_round_raw s now rid reps ag).2 = .error e →
      (resolve_round_raw s now rid reps ag).1 = s ∧
      resolve_round s now rid reps ag = .error e := by
  intro s now rid reps ag e h
  rcases resolve_raw_spec s now rid reps ag with ⟨e', hE⟩ |
    ⟨rd, res, s1, _, _, _, _, _, _, _, _, _, _, _, hEq⟩
  · rw [hE] at h
    simp only at h
    cases h
    rw [hE]
    exact ⟨rfl, by rw [resolve_round, hE]⟩
  · rw [hEq] at h
    cases h

/-- Claim C2 witness: resolving an unknown round fails and leaves the
one-participant state untouched. -/
theorem claim2_witness :
    (resolve_round_raw wS2 401 "zzz" [] none).1 = wS2 ∧
    resolve_round wS2 401 "zzz" [] none = .error "Round not found" :=
  claim2_resolve_failure_atomic wS2 401 "zzz" [] none "Round not found" (by decide)

/-- Claim C4: submit_caption fails exactly when the round is unknown, the
deadline has passed, the caller already submitted, or the text is empty or
over 280 characters; on success it writes the Caption under
(round_id, author), appends the caller to the participant index at the old
count, and increments the participant count by one. -/
theorem claim4_submit_caption_spec :
    ∀ (s : State) (sender : String) (now : Nat) (rid text : String),
      ((∃ e, submit_caption s sender now rid text = .error e) ↔
        (lookupA s.rounds rid = none ∨
          ∃ rd, lookupA s.rounds rid = some rd ∧
            (rd.submission_deadline < now ∨
             (lookupA s.round_captions (rid, sender)).isSome = true ∨
             text.length = 0 ∨ 280 < text.length))) ∧
      (∀ s', submit_caption s sender now rid text = .ok s' →
        s' = { s with
          round_captions :=
            setA s.round_captions (rid, sender) ⟨sender, text, now⟩,
          round_participant_addresses :=
            setA s.round_participant_addresses (rid, cntOf s rid) sender,
          round_participant_counts :=
            setA s.round_participant_counts rid (cntOf s rid + 1) } ∧
        cntOf s' rid = cntOf s rid + 1) := by
  intro s sender now rid text
  constructor
  · rcases hrd : lookupA s.rounds rid with _ | rd
    · simp [submit_caption, hrd]
    · by_cases h1 : rd.submission_deadline < now
      · simp [submit_caption, hrd, h1]
      by_cases h2 : (lookupA s.round_captions (rid, sender)).isSome = true
      · simp [submit_caption, hrd, h1, h2]
      by_cases h3 : text.length = 0
      · simp [submit_caption, hrd, h1, h2, h3]
      by_cases h4 : 280 < text.length
      · simp [submit_caption, hrd, h1, h2, h3, h4]
      · simp [submit_caption, hrd, h1, h2, h3, h4]
  · intro s' h
    obtain ⟨rd, _, _, _, _, _, hs'⟩ := submit_ok_inv h
    subst hs'
    exact ⟨rfl, by simp [cntOf, lookupA_setA_self]⟩

/-- Claim C4 witness: bob submitting "cat" to the fresh round succeeds and
yields the one-participant state; submitting to an unknown round fails. -/
theorem claim4_witness :
    ((submit_caption wS1 "bob" 150 "r1" "cat" = .ok wS2) ∧
      cntOf wS2 "r1" = cntOf wS1 "r1" + 1) ∧
    (∃ e, submit_caption wS1 "bob" 150 "zzz" "cat" = .error e) := by
  constructor
  · have h := (claim4_submit_caption_spec wS1 "bob" 150 "r1" "cat").2
    have hok : submit_caption wS1 "bob" 150 "r1" "cat" = .ok wS2 := by decide
    obtain ⟨_, hcnt⟩ := h wS2 hok
    exact ⟨hok, hcnt⟩
  · exact ((claim4_submit_caption_spec wS1 "bob" 150 "zzz" "cat").1).mpr
      (.inl (by decide))

/-- Claim C5: create_round fails exactly when the id exists, the url is not
HTTPS, or the category is unsupported; on success it stores a Round with
created_at = now and deadline = now + 300; and no operation ever changes
the submission deadline of a stored round. -/
theorem claim5_create_round_spec :
    (∀ (s : State) (sender : String) (now : Nat) (rid url cat : String),
      ((∃ e, create_round s sender now rid url cat = .error e) ↔
        ((lookupA s.rounds rid).isSome = true ∨
         pyStartsWith url "https://" = false ∨ cat ∉ validCategories)) ∧
      (∀ s', create_round s sender now rid url cat = .ok s' →
        lookupA s'.rounds rid =
          some ⟨rid, url, cat, sender, now, now + 300, false, false⟩)) ∧
    (∀ s s', Step s s' → ∀ r rd, lookupA s.rounds r = some rd →
      ∃ rd', lookupA s'.rounds r = some rd' ∧
        rd'.submission_deadline = rd.submission_deadline) := by
  constructor
  · intro s sender now rid url cat
    constructor
    · by_cases h1 : (lookupA s.rounds rid).isSome = true
      · simp [create_round, h1]
      by_cases h2 : pyStartsWith url "https://" = true
      · by_cases h3 : cat ∈ validCategories
        · simp [create_round, h1, h2, h3]
        · simp [create_round, h1, h2, h3]
      · simp [create_round, h1, h2]
    · intro s' h
      obtain ⟨_, _, _, hs'⟩ := create_ok_inv h
      subst hs'
      simp [lookupA_setA_self]
  · intro s s' hstep r rd hr
    obtain ⟨rd', h1, h2, _⟩ := step_round_flags hstep r rd hr
    exact ⟨rd', h1, h2⟩

/-- Claim C5 witness: creating "r1" on the empty contract succeeds with
deadline 400 = 100 + 300, a duplicate id fails, and a submit step leaves
the stored deadline unchanged. -/
theorem claim5_witness :
    (lookupA wS1.rounds "r1" = some wRound1) ∧
    (∃ e, create_round wS1 "alice" 200 "r1" "https://img" "Funniest" = .error e) ∧
    (∃ rd', lookupA wS2.rounds "r1" = some rd' ∧
      rd'.submission_deadline = wRound1.submission_deadline) := by
  refine ⟨?_, ?_, ?_⟩
  · have h := (claim5_create_round_spec.1 initState "alice" 100 "r1" "https://img" "Funniest").2
    have hok : create_round initState "alice" 100 "r1" "https://img" "Funniest" = .ok wS1 := by
      decide
    have := h wS1 hok
    simpa [wRound1] using this
  · exact ((claim5_create_round_spec.1 wS1 "alice" 200 "r1" "https://img" "Funniest").1).mpr
      (.inl (by decide))
  · exact claim5_create_round_spec.2 wS1 wS2
      (Step.submit wS1 wS2 "bob" 150 "r1" "cat" (by decide)) "r1" wRound1 (by decide)

/-- Claim C9: cancel_round succeeds exactly when the caller is the creator
and the round is unresolved; it only flips the cancelled flag (no XP, no
result), a subsequent resolve_round fails, and no operation ever un-cancels
a round. -/
theorem claim9_cancel_round_spec :
    (∀ (s : State) (sender rid : String) (rd : Round),
      lookupA s.rounds rid = some rd →
      ((∃ s', cancel_round s sender rid = .ok s') ↔
        (sender = rd.creator ∧ rd.resolved = false))) ∧
    (∀ (s : State) (sender rid : String) (s' : State),
      cancel_round s sender rid = .ok s' →
      s'.xp_scores = s.xp_scores ∧ s'.round_results = s.round_results ∧
      (∃ rd, lookupA s.rounds rid = some rd ∧
        lookupA s'.rounds rid = some { rd with cancelled := true }) ∧
      (∀ (now : Nat) (reps : List (List Char)) (ag : Option (List Char)),
        resolve_round s' now rid reps ag =
          .error "StateError: round was cancelled")) ∧
    (∀ s s', Step s s' → ∀ r rd, lookupA s.rounds r = some rd →
      rd.cancelled = true →
      ∃ rd', lookupA s'.rounds r = some rd' ∧ rd'.cancelled = true) := by
  refine ⟨?_, ?_, ?_⟩
  · intro s sender rid rd hrd
    constructor
    · rintro ⟨s', h⟩
      obtain ⟨rd0, hrd0, hcr, hres, _⟩ := cancel_ok_inv h
      rw [hrd] at hrd0
      cases hrd0
      exact ⟨hcr, hres⟩
    · rintro ⟨hcr, hres⟩
      refine ⟨{ s with rounds := setA s.rounds rid { rd with cancelled := true } }, ?_⟩
      simp [cancel_round, hrd, hcr, hres]
  · intro s sender rid s' h
    obtain ⟨rd, hrd, _, _, hs'⟩ := cancel_ok_inv h
    subst hs'
    refine ⟨rfl, rfl, ⟨rd, hrd, lookupA_setA_self _ _ _⟩, ?_⟩
    intro now reps ag
    rw [resolve_round]
    have hl : lookupA
        (setA s.rounds rid { rd with cancelled := true }) rid =
        some { rd with cancelled := true } := lookupA_setA_self _ _ _
    simp [resolve_round_raw, hl]
  · intro s s' hstep r rd hr hcan
    obtain ⟨rd', h1, _, h3⟩ := step_round_flags hstep r rd hr
    exact ⟨rd', h1, h3 hcan⟩

/-- Claim C9 witness: alice cancels "r1"; XP and results are untouched, the
round is marked cancelled, resolving it afterwards fails, and a non-creator
cancel is impossible. -/
theorem claim9_witness :
    (∃ s', cancel_round wS3 "alice" "r1" = .ok s') ∧
    (∀ s', cancel_round wS3 "alice" "r1" = .ok s' →
      s'.xp_scores = wS3.xp_scores ∧
      resolve_round s' 401 "r1" [] none =
        .error "StateError: round was cancelled") ∧
    ¬ (∃ s', cancel_round wS3 "bob" "r1" = .ok s') := by
  refine ⟨?_, ?_, ?_⟩
  · exact (claim9_cancel_round_spec.1 wS3 "alice" "r1" wRound1 (by decide)).mpr
      (by decide)
  · intro s' h
    obtain ⟨hxp, _, _, hresolve⟩ := claim9_cancel_round_spec.2.1 wS3 "alice" "r1" s' h
    exact ⟨hxp, hresolve 401 [] none⟩
  · intro ⟨s', h⟩
    have := (claim9_cancel_round_spec.1 wS3 "bob" "r1" wRound1 (by decide)).mp ⟨s', h⟩
    revert this
    decide

/-- Claim C6: get_round returns the hidden placeholder for every caption
text exactly while the deadline has not passed and the round is unresolved;
once either holds, the stored caption texts are returned. -/
theorem claim6_get_round_redaction :
    ∀ (s : State) (now : Nat) (rid : String) (rd : Round) (out : RoundView),
      lookupA s.rounds rid = some rd →
      get_round s now rid = .ok out →
      ((¬ rd.submission_deadline < now ∧ rd.resolved = false) →
        ∀ cv ∈ out.captions, cv.text = "[Hidden]") ∧
      ((rd.submission_deadline < now ∨ rd.resolved = true) →
        ∀ cv ∈ out.captions,
          ∃ cap, lookupA s.round_captions (rid, cv.author) = some cap ∧
            cv.text = cap.text) := by
  intro s now rid rd out hrd hok
  rw [get_round, hrd] at hok
  simp only at hok
  constructor
  · rintro ⟨hdl, hres⟩
    have hvis : (decide (rd.submission_deadline < now) || rd.resolved) = false := by
      simp [hdl, hres]
    rw [hvis] at hok
    split at hok
    · cases hok
    cases hok
    intro cv hcv
    exact buildCaptionViews_hidden s rid _ _ (by assumption) cv hcv
  · intro hvis0
    have hvis : (decide (rd.submission_deadline < now) || rd.resolved) = true := by
      rcases hvis0 with h | h <;> simp [h]
    rw [hvis] at hok
    split at hok
    · cases hok
    cases hok
    intro cv hcv
    exact buildCaptionViews_visible s rid _ _ (by assumption) cv hcv

/-- Claim C6 witness: before the deadline the two captions of the witness
round read "[Hidden]"; after the deadline the stored text "cat" of bob is
returned. -/
theorem claim6_witness :
    (∀ cv ∈ (⟨"r1", "https://img", "Funniest", "alice", 100, 400, false,
        [⟨"bob", "[Hidden]", 150⟩, ⟨"carol", "[Hidden]", 160⟩], 2⟩ :
          RoundView).captions, cv.text = "[Hidden]") ∧
    (∀ cv ∈ (⟨"r1", "https://img", "Funniest", "alice", 100, 400, false,
        [⟨"bob", "cat", 150⟩, ⟨"carol", "dog", 160⟩], 2⟩ :
          RoundView).captions,
      ∃ cap, lookupA wS3.round_captions ("r1", cv.author) = some cap ∧
        cv.text = cap.text) := by
  constructor
  · exact (claim6_get_round_redaction wS3 200 "r1" wRound1 _ (by decide)
      (by decide)).1 (by decide)
  · exact (claim6_get_round_redaction wS3 401 "r1" wRound1 _ (by decide)
      (by decide)).2 (by decide)

/-- Claim C1: a deadline-passed round with exactly one participant takes
the solo path: resolution does not fail for lack of participants, and when
the replicas agree on a score the stored RoundResult has is_solo_round true
and solo_score in [1, 10].  The solo branch and its exact-match agreement
are modelled from the spec (the tutorial snapshot of resolve_round elides
them). -/
theorem claim1_solo_round :
    ∀ (s : State) (now : Nat) (rid : String) (ag : Option (List Char))
      (rd : Round) (a0 : String) (cap : Caption) (k : Nat)
      (r0 : List Char) (rest : List (List Char)),
      lookupA s.rounds rid = some rd →
      rd.cancelled = false → rd.resolved = false →
      rd.submission_deadline < now →
      cntOf s rid = 1 →
      lookupA s.round_participant_addresses (rid, 0) = some a0 →
      lookupA s.round_captions (rid, a0) = some cap →
      parseScore r0 = some k →
      (∀ r ∈ rest, parseScore r = some k) →
      1 ≤ k → k ≤ 10 →
      ∃ s', resolve_round s now rid (r0 :: rest) ag = .ok s' ∧
        ∃ res, lookupA s'.round_results rid = some res ∧
          res.is_solo_round = true ∧ res.solo_score = some k ∧
          1 ≤ k ∧ k ≤ 10 := by
  intro s now rid ag rd a0 cap k r0 rest hrd hcan hres hdl hcnt ha0 hcap hr0 hall hk1 hk10
  have hg : gather s rid (List.range 1) =
      .ok ([(letterId 0, cap.text)], [(letterId 0, a0)]) := by
    have h01 : List.range 1 = [0] := rfl
    rw [h01]
    simp [gather, ha0, hcap]
  have hsa : soloAgreement (r0 :: rest) = .ok k := by
    have hb : rest.all (fun r => parseScore r == some k) = true := by
      rw [List.all_eq_true]
      intro r hr
      simp [hall r hr]
    simp [soloAgreement, hr0, hb, hk1, hk10]
  have hraw : resolve_round_raw s now rid (r0 :: rest) ag =
      (finalizeResolve (award_xp s a0 (3 + k * 15 / 10)) rid rd
        ⟨a0, none, cap.text, none, now, true, some k⟩, .ok ()) := by
    rw [resolve_round_raw, hrd]
    simp [hcan, hres, hdl, hcnt, hg, hsa]
  refine ⟨finalizeResolve (award_xp s a0 (3 + k * 15 / 10)) rid rd
      ⟨a0, none, cap.text, none, now, true, some k⟩, ?_,
    ⟨a0, none, cap.text, none, now, true, some k⟩,
    finalizeResolve_results_self _ _ _ _, rfl, rfl, hk1, hk10⟩
  rw [resolve_round, hraw]

/-- Claim C1 witness: the one-participant witness round with three replicas
all answering "7" resolves to a solo RoundResult scored 7. -/
theorem claim1_witness :
    ∃ s', resolve_round wS2 401 "r1"
        ["7".toList, "7".toList, "7".toList] none = .ok s' ∧
      ∃ res, lookupA s'.round_results "r1" = some res ∧
        res.is_solo_round = true ∧ res.solo_score = some 7 ∧
        1 ≤ 7 ∧ 7 ≤ 10 :=
  claim1_solo_round wS2 401 "r1" none wRound1 "bob" ⟨"bob", "cat", 150⟩ 7
    "7".toList ["7".toList, "7".toList]
    (by decide) (by decide) (by decide) (by decide) (by decide) (by decide)
    (by decide) (by decide) (by decide) (by decide) (by decide)

/-- Claim C7: a successful comparative resolution pays the winner exactly
15 XP (participation 3 plus a 12 bonus), the runner-up exactly 8
(3 plus 5), and every other participant exactly 3.  The hypothesis that the
agreed output names two distinct ids reflects the structural-validity rule
the agreement engine enforces per the spec; the participant index is free
of duplicates in every reachable state. -/
theorem claim7_comparative_rewards :
    ∀ (s : State) (now : Nat) (rid : String) (reps : List (List Char))
      (raw : List Char) (rd : Round) (ce ia : List (String × String))
      (wa ra : String),
      lookupA s.rounds rid = some rd →
      rd.cancelled = false → rd.resolved = false →
      rd.submission_deadline < now →
      2 ≤ cntOf s rid →
      gather s rid (List.range (cntOf s rid)) = .ok (ce, ia) →
      (ia.map Prod.snd).Nodup →
      parseAgreed raw ia = .ok (wa, ra) →
      wa ≠ ra →
      ∃ s', resolve_round s now rid reps (some raw) = .ok s' ∧
        xpOf s' wa = xpOf s wa + 15 ∧
        xpOf s' ra = xpOf s ra + 8 ∧
        ∀ a ∈ ia.map Prod.snd, a ≠ wa → a ≠ ra →
          xpOf s' a = xpOf s a + 3 := by
  intro s now rid reps raw rd ce ia wa ra hrd hcan hres hdl h2 hg hnd hp hne
  have hcnt0 : ¬ cntOf s rid = 0 := by omega
  have hone : ¬ cntOf s rid = 1 := by omega
  have hmem := parseAgreed_ok_mem raw ia wa ra hp
  have hwc : ∃ cap, lookupA s.round_captions (rid, wa) = some cap := by
    obtain ⟨kv, hkv, hkv2⟩ := List.mem_map.mp hmem.1
    subst hkv2
    exact gather_captions_exist s rid _ ce ia hg kv hkv
  have hrc : ∃ cap, lookupA s.round_captions (rid, ra) = some cap := by
    obtain ⟨kv, hkv, hkv2⟩ := List.mem_map.mp hmem.2
    subst hkv2
    exact gather_captions_exist s rid _ ce ia hg kv hkv
  obtain ⟨wc, hwc⟩ := hwc
  obtain ⟨rc, hrc⟩ := hrc
  have hc1 : (award_xp (award_xp
      (List.foldl (fun st a => award_xp st a 3) s (List.map Prod.snd ia)) wa 12)
        ra 5).round_captions = s.round_captions := by
    rw [award_xp_captions, award_xp_captions]
    exact awardAll_captions (List.map Prod.snd ia) s 3
  have hraw : resolve_round_raw s now rid reps (some raw) =
      (finalizeResolve
        (award_xp (award_xp (awardAll s (ia.map Prod.snd) 3) wa (15 - 3)) ra (8 - 3))
        rid rd ⟨wa, some ra, wc.text, some rc.text, now, false, none⟩, .ok ()) := by
    rw [resolve_round_raw, hrd]
    simp only [hcan, hres, hdl, hcnt0, hone, hg, hp]
    simp [hcan, hres, hdl, hcnt0, hone, hg, hp, hc1, hwc, hrc, awardAll]
  refine ⟨finalizeResolve
      (award_xp (award_xp (awardAll s (ia.map Prod.snd) 3) wa (15 - 3)) ra (8 - 3))
      rid rd ⟨wa, some ra, wc.text, some rc.text, now, false, none⟩,
    ?_, ?_, ?_, ?_⟩
  · rw [resolve_round, hraw]
  · rw [finalizeResolve_xp, xpOf_award_ne _ _ _ _ hne, xpOf_award_self,
      xpOf_awardAll_mem _ _ _ _ hmem.1 hnd]
  · rw [finalizeResolve_xp, xpOf_award_self, xpOf_award_ne _ _ _ _ (Ne.symm hne),
      xpOf_awardAll_mem _ _ _ _ hmem.2 hnd]
  · intro a ha hawa hara
    rw [finalizeResolve_xp, xpOf_award_ne _ _ _ _ hara, xpOf_award_ne _ _ _ _ hawa,
      xpOf_awardAll_mem _ _ _ _ ha hnd]

/-- Claim C7 witness: the two-participant witness round resolved with the
agreed verdict winner A runner-up B pays bob 15 XP and carol 8 XP. -/
theorem claim7_witness :
    ∃ s', resolve_round wS3 401 "r1" []
        (some ("\x7b\"winner\": \"A\", \"runner_up\": \"B\"\x7d".toList)) = .ok s' ∧
      xpOf s' "bob" = xpOf wS3 "bob" + 15 ∧
      xpOf s' "carol" = xpOf wS3 "carol" + 8 ∧
      ∀ a ∈ ([(letterId 0, "bob"), (letterId 1, "carol")].map Prod.snd),
        a ≠ "bob" → a ≠ "carol" → xpOf s' a = xpOf wS3 a + 3 :=
  claim7_comparative_rewards wS3 401 "r1" []
    ("\x7b\"winner\": \"A\", \"runner_up\": \"B\"\x7d".toList) wRound1
    [(letterId 0, "cat"), (letterId 1, "dog")]
    [(letterId 0, "bob"), (letterId 1, "carol")] "bob" "carol"
    (by decide) (by decide) (by decide) (by decide) (by decide) (by decide)
    (by decide) (by decide) (by decide)

/-- Claim C8: get_leaderboard returns one entry per player in the ledger
player list with its XP (a permutation of that list), entries are in
descending XP order (any entry with strictly more XP appears strictly
earlier), and in every reachable state the player list holds exactly the
players that have ever been awarded XP (those with a ledger entry). -/
theorem claim8_leaderboard_sorted :
    (∀ s : State,
      (get_leaderboard s).Perm
        (s.player_list.map (fun a => ⟨a, xpOf s a⟩)) ∧
      ∀ (i j : Nat) (hi : i < (get_leaderboard s).length)
        (hj : j < (get_leaderboard s).length),
        ((get_leaderboard s).get ⟨j, hj⟩).xp <
          ((get_leaderboard s).get ⟨i, hi⟩).xp → i < j) ∧
    (∀ s : State, Reachable s → ∀ a : String,
      (lookupA s.xp_scores a).isSome ↔ a ∈ s.player_list) := by
  constructor
  · intro s
    refine ⟨selSort_perm _, ?_⟩
    intro i j hi hj hlt
    have hs := selSort_sorted (s.player_list.map (fun a => ⟨a, xpOf s a⟩))
    rcases lt_trichotomy i j with h | h | h
    · exact h
    · subst h
      exact absurd hlt (lt_irrefl _)
    · have hrel := List.pairwise_iff_get.mp hs ⟨j, hj⟩ ⟨i, hi⟩ h
      exact absurd (lt_of_lt_of_le hlt hrel) (lt_irrefl _)
  · intro s hre
    exact reachable_ledger hre

/-- Claim C8 witness: a three-player ledger with scores 3, 15, 8 is
returned as a permutation, the higher-ranked entry at position 0 precedes
the entry at position 2, and on the reachable initial state the ledger
membership equivalence holds for a concrete player. -/
theorem claim8_witness :
    ((get_leaderboard { initState with
        xp_scores := [("a", 3), ("b", 15), ("c", 8)],
        player_list := ["a", "b", "c"] }).Perm
      (["a", "b", "c"].map (fun a => ⟨a, xpOf { initState with
        xp_scores := [("a", 3), ("b", 15), ("c", 8)],
        player_list := ["a", "b", "c"] } a⟩)) ∧
    (0 : Nat) < 2) ∧
    ((lookupA initState.xp_scores "a").isSome ↔ "a" ∈ initState.player_list) := by
  refine ⟨⟨?_, ?_⟩, ?_⟩
  · exact (claim8_leaderboard_sorted.1 { initState with
      xp_scores := [("a", 3), ("b", 15), ("c", 8)],
      player_list := ["a", "b", "c"] }).1
  · exact (claim8_leaderboard_sorted.1 { initState with
      xp_scores := [("a", 3), ("b", 15), ("c", 8)],
      player_list := ["a", "b", "c"] }).2 0 2 (by decide) (by decide) (by decide)
  · exact claim8_leaderboard_sorted.2 initState Reachable.init "a"

/-- Claim C10: in every reachable state the stored participant count of a
round equals the number of participant-index entries and the number of
stored captions for that round, and a successful get_round reports
participant_count equal to the length of the caption list it returns,
which is that same count. -/
theorem claim10_participant_count_invariant :
    ∀ s : State, Reachable s → ∀ r : String,
      (s.round_participant_addresses.filter
        (fun kv => kv.1.1 = r)).length = cntOf s r ∧
      (s.round_captions.filter (fun kv => kv.1.1 = r)).length = cntOf s r ∧
      ∀ (now : Nat) (out : RoundView), get_round s now r = .ok out →
        out.participant_count = out.captions.length ∧
        out.captions.length = cntOf s r := by
  intro s hreach r
  obtain ⟨hidx, hflt, hcap⟩ := reachable_inv hreach r
  refine ⟨hflt, hcap, ?_⟩
  intro now out hok
  simp only [get_round] at hok
  split at hok
  · cases hok
  split at hok
  · cases hok
  cases hok
  refine ⟨rfl, ?_⟩
  simp only
  rw [buildCaptionViews_ok_length _ _ _ _ _ (by assumption)]
  simp

/-- Claim C10 witness: the state reached by creating "r1" and submitting
one caption satisfies the count equalities at "r1" with value 1. -/
theorem claim10_witness :
    ((wS2.round_participant_addresses.filter
      (fun kv => kv.1.1 = "r1")).length = cntOf wS2 "r1") ∧
    ((wS2.round_captions.filter
      (fun kv => kv.1.1 = "r1")).length = cntOf wS2 "r1") := by
  have hreach : Reachable wS2 :=
    Reachable.step
      (Reachable.step Reachable.init
        (Step.create initState wS1 "alice" 100 "r1" "https://img" "Funniest"
          (by decide)))
      (Step.submit wS1 wS2 "bob" 150 "r1" "cat" (by decide))
  obtain ⟨h1, h2, _⟩ := claim10_participant_count_invariant wS2 hreach "r1"
  exact ⟨h1, h2⟩

/-- Agreed output naming the same letter twice. -/
def ceRawEqual : List Char :=
  "\x7b\"winner\": \"A\", \"runner_up\": \"A\"\x7d".toList

/-- A well-formed verdict object with two distinct valid ids. -/
def ceFirstObj : List Char :=
  "\x7b\"winner\": \"A\", \"runner_up\": \"B\"\x7d".toList

/-- Agreed output whose first top-level object is ceFirstObj, followed by
trailing commentary that contains a second object. -/
def ceRawTwoObjs : List Char :=
  "note \x7b\"winner\": \"A\", \"runner_up\": \"B\"\x7d \x7b\"x\": 1\x7d".toList

/-- Claim C3 counterexample: on the two-participant witness round,
(1) an agreed output whose winner and runner_up are the same letter id is
accepted and the resolution succeeds, although the claim requires it to
fail; (2) an output whose first top-level JSON object is a valid verdict
with two distinct valid ids, but whose trailing commentary contains a
closing brace, makes the resolution fail, although the claim requires the
first top-level object to be extracted and accepted: the code slices from
the first opening brace to the last closing brace. -/
theorem claim3_counterexample :
    (resolve_round wS3 401 "r1" [] (some ceRawEqual)).toOption.isSome = true ∧
    parseAgreed ceRawEqual [(letterId 0, "bob"), (letterId 1, "carol")] =
      .ok ("bob", "bob") ∧
    ceRawTwoObjs = "note ".toList ++ ceFirstObj ++ " \x7b\"x\": 1\x7d".toList ∧
    parseAgreed ceFirstObj [(letterId 0, "bob"), (letterId 1, "carol")] =
      .ok ("bob", "carol") ∧
    (resolve_round wS3 401 "r1" [] (some ceRawTwoObjs)).toOption.isSome = false := by
  decide

/-- Claim C3 as amended: the parse step strips the raw text and, when it
does not already start with an opening brace, takes the slice from the
first opening brace to the last closing brace; it succeeds exactly when
that slice is valid JSON for an object carrying winner and runner_up keys
whose string values are letter ids assigned for the round, translated
through id_to_address.  The two ids are not required to be distinct. -/
theorem claim3_parse_amended :
    ∀ (raw : List Char) (table : List (String × String)) (wa ra : String),
      parseAgreed raw table = .ok (wa, ra) ↔
      ∃ js j, effectiveJson raw = some js ∧ jsonLoads js = some j ∧
        ∃ kvs w r, j = Json.obj kvs ∧
          objGet kvs "winner" = some (Json.str w) ∧
          objGet kvs "runner_up" = some (Json.str r) ∧
          lookupA table w = some wa ∧ lookupA table r = some ra := by
  intro raw table wa ra
  constructor
  · intro h
    simp only [parseAgreed] at h
    split at h
    · cases h
    split at h
    · cases h
    split at h
    · cases h
    split at h
    rotate_left
    · cases h
    split at h
    rotate_left
    · cases h
    split at h
    rotate_left
    · cases h
    split at h
    rotate_left
    · cases h
    cases h
    exact ⟨_, _, by assumption, by assumption, _, _, _, rfl,
      by assumption, by assumption, by assumption, by assumption⟩
  · rintro ⟨js, j, hej, hjl, kvs, w, r, rfl, hw, hr, hwl, hrl⟩
    have hstripn : ¬ (raw = [] ∨ pyStrip raw = []) := by
      rintro (rfl | hstrip)
      · rw [show effectiveJson [] = none from rfl] at hej
        cases hej
      · have hnone : effectiveJson raw = none := by
          simp [effectiveJson, hstrip, pyFind]
        rw [hnone] at hej
        cases hej
    rw [parseAgreed]
    simp only [if_neg hstripn, hej, hjl, hw, hr, hwl, hrl]

/-- Claim C3 amendment witness: the well-formed verdict object parses to
the pair (bob, carol) through the characterization. -/
theorem claim3_witness :
    ∃ js j, effectiveJson ceFirstObj = some js ∧ jsonLoads js = some j ∧
      ∃ kvs w r, j = Json.obj kvs ∧
        objGet kvs "winner" = some (Json.str w) ∧
        objGet kvs "runner_up" = some (Json.str r) ∧
        lookupA [(letterId 0, "bob"), (letterId 1, "carol")] w = some "bob" ∧
        lookupA [(letterId 0, "bob"), (letterId 1, "carol")] r = some "carol" :=
  (claim3_parse_amended ceFirstObj [(letterId 0, "bob"), (letterId 1, "carol")]
    "bob" "carol").mp (by decide)

end CaptionThis
